import Mathlib

open Real

/-! Verification development for the spirograph pattern generator
(`modules/spiro/generator.py`): period calculation by rationalized
gcd/lcm arithmetic, linear-space sampling, Cartesian-to-polar conversion
with angle unwrapping, and rho normalization into a device-safe range.
Real-valued program quantities are modelled by exact reals; the
fixed-point rationalization (scaling by 1000 and truncating to an
integer) is modelled on exact rationals. -/

/-- Python `int(q)`: truncation of a rational toward zero. -/
def truncInt (q : ℚ) : ℤ := if 0 ≤ q then ⌊q⌋ else ⌈q⌉

/-- The lcm as the source computes it from two scaled inputs:
`gcd = math.gcd(int(p*1000), int(q*1000))` followed by
`lcm = (int(p*1000) * int(q*1000)) // gcd` (Python `//` on integers is
floor division).  This identical computation appears in
`generate_hypotrochoid`, `generate_epitrochoid` and `generate_lissajous`. -/
def ratio_lcm (p q : ℚ) : ℤ :=
  Int.fdiv (truncInt (p * 1000) * truncInt (q * 1000))
    (Int.gcd (truncInt (p * 1000)) (truncInt (q * 1000)))

/-- `num_rotations = lcm / (r * 1000)` from `generate_hypotrochoid` and
`generate_epitrochoid` (Python float true division; the divisor is the
unrationalized `r * 1000`, not `int(r * 1000)`).  This total model sends
a zero divisor to 0 where CPython raises `ZeroDivisionError`; the raising
behaviour is captured by `trochoid_num_rotations_checked`. -/
def trochoid_num_rotations (R r : ℚ) : ℚ := (ratio_lcm R r : ℚ) / (r * 1000)

/-- The exception CPython raises when `/` or `//` meets a zero divisor. -/
inductive PyNumericError where
  | zeroDivisionError
deriving DecidableEq

/-- The rotation computation of `generate_hypotrochoid` lines 101-103 with
CPython division semantics made explicit: `//` and `/` raise
`ZeroDivisionError` on a zero divisor.  `trochoid_num_rotations` is the
total projection of this computation. -/
def trochoid_num_rotations_checked (R r : ℚ) : Except PyNumericError ℚ :=
  if (Int.gcd (truncInt (R * 1000)) (truncInt (r * 1000)) : ℤ) = 0 then
    Except.error PyNumericError.zeroDivisionError
  else if r * 1000 = 0 then Except.error PyNumericError.zeroDivisionError
  else Except.ok ((ratio_lcm R r : ℚ) / (r * 1000))

/-- `t_max = 2 * math.pi * num_rotations` for both trochoid families. -/
noncomputable def trochoid_t_max (R r : ℚ) : ℝ :=
  2 * π * ((trochoid_num_rotations R r : ℚ) : ℝ)

/-- Rose-curve sampling range (`generate_rose` lines 222-226):
`gcd = math.gcd(n, d)`, then `t_max = 2 * math.pi * d // gcd` when `d` or
`n` is even, else `t_max = math.pi * d // gcd`.  Python `//` between a
float and an integer is floor division, so the range is the floor of the
quotient, returned as a float. -/
noncomputable def rose_t_max (n d : ℤ) : ℝ :=
  if d % 2 = 0 ∨ n % 2 = 0 then ((⌊2 * π * (d : ℝ) / (Int.gcd n d : ℝ)⌋ : ℤ) : ℝ)
  else ((⌊π * (d : ℝ) / (Int.gcd n d : ℝ)⌋ : ℤ) : ℝ)

/-- `period = 2 * math.pi * lcm / 1000` (`generate_lissajous` line 274). -/
noncomputable def lissajous_period (a b : ℚ) : ℝ :=
  2 * π * (ratio_lcm a b : ℝ) / 1000

/-- `np.linspace(start, stop, num)`: `num` evenly spaced samples over the
closed interval, endpoints included.  For `num = 1` numpy returns
`[start]`; the formula below agrees because Lean division by zero is
zero. -/
noncomputable def linspace (start stop : ℝ) (num : ℕ) : List ℝ :=
  (List.range num).map fun i : ℕ => start + (i : ℝ) * (stop - start) / ((num : ℝ) - 1)

/-- `_normalize_rho`: clamp rho into `[0, max_rho]` via
`max(0.0, min(max_rho, rho))`. -/
noncomputable def normalize_rho (rho max_rho : ℝ) : ℝ := max 0 (min max_rho rho)

/-- `math.atan2 y x` on exact reals: the principal argument of the complex
number with real part `x` and imaginary part `y`, valued in `(-π, π]`,
with `atan2 0 0 = 0`. -/
noncomputable def atan2 (y x : ℝ) : ℝ := Complex.arg ⟨x, y⟩

/-- The theta-unwrapping loop
`while theta - prev_theta > pi: theta -= 2*pi` followed by
`while theta - prev_theta < -pi: theta += 2*pi`, in closed form: each
ceiling counts exactly how many times the corresponding loop body runs. -/
noncomputable def unwrap (prev theta : ℝ) : ℝ :=
  if π < theta - prev then theta - 2 * π * ((⌈(theta - prev - π) / (2 * π)⌉ : ℤ) : ℝ)
  else if theta - prev < -π then
    theta + 2 * π * ((⌈(prev - theta - π) / (2 * π)⌉ : ℤ) : ℝ)
  else theta

/-- The shared Cartesian-to-polar emission loop of `generate_hypotrochoid`,
`generate_epitrochoid`, `generate_lissajous` and
`generate_custom_parametric`: starting from `prev_theta = 0`, each point
yields `rho = sqrt(x*x + y*y)` and `theta = atan2(y, x)`, theta is
unwrapped against the previously emitted theta, and rho is passed through
the family's normalization step `norm`. -/
noncomputable def toPolarLoop (norm : ℝ → ℝ) : ℝ → List (ℝ × ℝ) → List (ℝ × ℝ)
  | _, [] => []
  | prev, (x, y) :: rest =>
    let theta := unwrap prev (atan2 y x)
    (theta, norm (Real.sqrt (x * x + y * y))) :: toPolarLoop norm theta rest

/-- `generate_hypotrochoid`: sample
`x = (R - r) cos t + d cos((R - r)/r t)`,
`y = (R - r) sin t - d sin((R - r)/r t)` over `[0, t_max]`, convert to
polar with unwrapping, normalize by `max_possible_rho = R + d`, scale,
offset and clamp. -/
noncomputable def generate_hypotrochoid (R r : ℚ) (d : ℝ) (num_points : ℕ)
    (scale center_offset : ℝ) : List (ℝ × ℝ) :=
  let pts := (linspace 0 (trochoid_t_max R r) num_points).map fun t =>
    (((R : ℝ) - (r : ℝ)) * Real.cos t +
       d * Real.cos (((R : ℝ) - (r : ℝ)) / (r : ℝ) * t),
     ((R : ℝ) - (r : ℝ)) * Real.sin t -
       d * Real.sin (((R : ℝ) - (r : ℝ)) / (r : ℝ) * t))
  toPolarLoop
    (fun rho => normalize_rho (rho / ((R : ℝ) + d) * scale + center_offset) 1) 0 pts

/-- `generate_epitrochoid`: sample
`x = (R + r) cos t - d cos((R + r)/r t)`,
`y = (R + r) sin t - d sin((R + r)/r t)` over `[0, t_max]`, convert to
polar with unwrapping, normalize by `max_possible_rho = R + r + d`,
scale, offset and clamp. -/
noncomputable def generate_epitrochoid (R r : ℚ) (d : ℝ) (num_points : ℕ)
    (scale center_offset : ℝ) : List (ℝ × ℝ) :=
  let pts := (linspace 0 (trochoid_t_max R r) num_points).map fun t =>
    (((R : ℝ) + (r : ℝ)) * Real.cos t -
       d * Real.cos (((R : ℝ) + (r : ℝ)) / (r : ℝ) * t),
     ((R : ℝ) + (r : ℝ)) * Real.sin t -
       d * Real.sin (((R : ℝ) + (r : ℝ)) / (r : ℝ) * t))
  toPolarLoop
    (fun rho =>
      normalize_rho (rho / ((R : ℝ) + (r : ℝ) + d) * scale + center_offset) 1)
    0 pts

/-- `generate_rose`: sample `rho_raw = abs(cos((n/d) t))` over
`[0, t_max]`; the parameter `t` is emitted directly as theta (no
unwrapping), and rho is scaled, offset and clamped. -/
noncomputable def generate_rose (n d : ℤ) (num_points : ℕ)
    (scale center_offset : ℝ) : List (ℝ × ℝ) :=
  (linspace 0 (rose_t_max n d) num_points).map fun t =>
    (t, normalize_rho (|Real.cos ((n : ℝ) / (d : ℝ) * t)| * scale + center_offset) 1)

/-- `generate_lissajous`: sample `x = sin(a t + delta)`, `y = sin(b t)`
over one period, convert to polar with unwrapping, normalize by
`sqrt(2)`, scale, offset and clamp. -/
noncomputable def generate_lissajous (a b : ℚ) (delta : ℝ) (num_points : ℕ)
    (scale center_offset : ℝ) : List (ℝ × ℝ) :=
  let pts := (linspace 0 (lissajous_period a b) num_points).map fun t =>
    (Real.sin ((a : ℝ) * t + delta), Real.sin ((b : ℝ) * t))
  toPolarLoop
    (fun rho => normalize_rho (rho / Real.sqrt 2 * scale + center_offset) 1) 0 pts

/-- The `max_r` computation of `generate_custom_parametric`: `1.0` unless
`auto_scale` is set, in which case the largest sampled radius
`max(sqrt(x*x + y*y) for x, y in cartesian_coords)`, with the value 0
replaced by 1 to avoid a zero divisor.  (The fold with initial value 0
agrees with Python `max` on every non-empty list because radii are
non-negative; Python `max` on an empty sequence raises instead.) -/
noncomputable def custom_max_r (cart : List (ℝ × ℝ)) (auto_scale : Bool) : ℝ :=
  if auto_scale then
    let m := cart.foldr (fun q acc => max (Real.sqrt (q.1 * q.1 + q.2 * q.2)) acc) 0
    if m = 0 then 1 else m
  else 1

/-- `generate_custom_parametric`: two passes, first materializing all
Cartesian samples of the injected `x_func`/`y_func` over
`[t_start, t_end]`, then converting to polar with unwrapping and
normalizing by `max_r`. -/
noncomputable def generate_custom_parametric (x_func y_func : ℝ → ℝ)
    (t_start t_end : ℝ) (num_points : ℕ) (scale center_offset : ℝ)
    (auto_scale : Bool) : List (ℝ × ℝ) :=
  let cart := (linspace t_start t_end num_points).map fun t => (x_func t, y_func t)
  toPolarLoop
    (fun rho =>
      normalize_rho (rho / custom_max_r cart auto_scale * scale + center_offset) 1)
    0 cart

/-- Parameter record carried by the `generate_and_save` dispatcher: one
field per keyword argument a dispatched generator consumes (`roseN` and
`roseD` stand for the `n`/`d` keywords of the rose family). -/
structure SpiroParams where
  R : ℚ
  r : ℚ
  d : ℝ
  roseN : ℤ
  roseD : ℤ
  a : ℚ
  b : ℚ
  delta : ℝ
  num_points : ℕ
  scale : ℝ
  center_offset : ℝ

/-- The error `generate_and_save` raises when the pattern-type tag matches
no curve family: the source raises `ValueError("Unknown pattern type: ...")`,
which the design documents name `UnsupportedCurveFamily`. -/
inductive DispatchError where
  | unsupportedCurveFamily
deriving DecidableEq

/-- The dispatch of `generate_and_save` (lines 428-439): the coordinate
sequence computed by the generator for a recognized family tag
(`SpirographType` is a string-valued enum compared by value), an error
otherwise.  Saving the sequence to disk is an external effect outside
this model; an error result means no coordinate sequence is produced and
nothing reaches `save_to_thr`. -/
noncomputable def generate_and_save_coords (pattern_type : String)
    (p : SpiroParams) : Except DispatchError (List (ℝ × ℝ)) :=
  if pattern_type = "hypotrochoid" then
    Except.ok (generate_hypotrochoid p.R p.r p.d p.num_points p.scale p.center_offset)
  else if pattern_type = "epitrochoid" then
    Except.ok (generate_epitrochoid p.R p.r p.d p.num_points p.scale p.center_offset)
  else if pattern_type = "rose" then
    Except.ok (generate_rose p.roseN p.roseD p.num_points p.scale p.center_offset)
  else if pattern_type = "lissajous" then
    Except.ok (generate_lissajous p.a p.b p.delta p.num_points p.scale p.center_offset)
  else Except.error DispatchError.unsupportedCurveFamily

/-- The unwrapping loop never leaves more than a half-turn between the
emitted theta and the previous one: its result lies within `π` of
`prev`. -/
theorem abs_unwrap_sub_le (prev theta : ℝ) : |unwrap prev theta - prev| ≤ π := by
  have hπ : (0 : ℝ) < π := Real.pi_pos
  have h2π : (0 : ℝ) < 2 * π := by linarith
  unfold unwrap
  split_ifs with h1 h2
  · set k : ℤ := ⌈(theta - prev - π) / (2 * π)⌉ with hk
    have hle : (theta - prev - π) / (2 * π) ≤ (k : ℝ) := Int.le_ceil _
    have hlt : (k : ℝ) < (theta - prev - π) / (2 * π) + 1 := Int.ceil_lt_add_one _
    have hq : (theta - prev - π) / (2 * π) * (2 * π) = theta - prev - π :=
      div_mul_cancel₀ _ (ne_of_gt h2π)
    have hle2 : theta - prev - π ≤ (k : ℝ) * (2 * π) := by
      have := mul_le_mul_of_nonneg_right hle (le_of_lt h2π)
      rw [hq] at this
      exact this
    have hlt2 : (k : ℝ) * (2 * π) < theta - prev - π + 2 * π := by
      have := mul_lt_mul_of_pos_right hlt h2π
      rw [add_mul, one_mul, hq] at this
      exact this
    rw [abs_le]
    constructor <;> nlinarith
  · set k : ℤ := ⌈(prev - theta - π) / (2 * π)⌉ with hk
    have hle : (prev - theta - π) / (2 * π) ≤ (k : ℝ) := Int.le_ceil _
    have hlt : (k : ℝ) < (prev - theta - π) / (2 * π) + 1 := Int.ceil_lt_add_one _
    have hq : (prev - theta - π) / (2 * π) * (2 * π) = prev - theta - π :=
      div_mul_cancel₀ _ (ne_of_gt h2π)
    have hle2 : prev - theta - π ≤ (k : ℝ) * (2 * π) := by
      have := mul_le_mul_of_nonneg_right hle (le_of_lt h2π)
      rw [hq] at this
      exact this
    have hlt2 : (k : ℝ) * (2 * π) < prev - theta - π + 2 * π := by
      have := mul_lt_mul_of_pos_right hlt h2π
      rw [add_mul, one_mul, hq] at this
      exact this
    rw [abs_le]
    constructor <;> nlinarith
  · rw [abs_le]
    exact ⟨not_lt.mp h2, not_lt.mp h1⟩

/-- The polar-conversion loop emits one coordinate per Cartesian sample. -/
theorem toPolarLoop_length (norm : ℝ → ℝ) :
    ∀ (pts : List (ℝ × ℝ)) (prev : ℝ),
      (toPolarLoop norm prev pts).length = pts.length := by
  intro pts
  induction pts with
  | nil => intro prev; rfl
  | cons p rest ih =>
    intro prev
    obtain ⟨x, y⟩ := p
    simp [toPolarLoop, ih]

/-- Every adjacent pair of angles emitted by the polar-conversion loop,
including the pair formed with the initial `prev`, differs by at most
`π`. -/
theorem toPolarLoop_fst_chain (norm : ℝ → ℝ) :
    ∀ (pts : List (ℝ × ℝ)) (prev : ℝ),
      List.Chain (fun u v : ℝ => |v - u| ≤ π) prev
        ((toPolarLoop norm prev pts).map Prod.fst) := by
  intro pts
  induction pts with
  | nil => intro prev; simp [toPolarLoop]
  | cons p rest ih =>
    intro prev
    obtain ⟨x, y⟩ := p
    simp only [toPolarLoop, List.map_cons]
    exact List.Chain.cons (abs_unwrap_sub_le prev (atan2 y x)) (ih _)

/-- A chain anchored at any value restricts to a chain over the list
itself. -/
theorem chain'_of_chain {α : Type} {r : α → α → Prop} {a : α} {l : List α}
    (h : List.Chain r a l) : List.Chain' r l := by
  cases h with
  | nil => simp
  | cons hr hc => exact hc

/-- When the normalization step satisfies `P` on the radius of every
sampled point, every emitted rho satisfies `P`. -/
theorem toPolarLoop_forall_snd (norm : ℝ → ℝ) (P : ℝ → Prop) :
    ∀ (pts : List (ℝ × ℝ)) (prev : ℝ),
      (∀ q ∈ pts, P (norm (Real.sqrt (q.1 * q.1 + q.2 * q.2)))) →
      List.Forall (fun p : ℝ × ℝ => P p.2) (toPolarLoop norm prev pts) := by
  intro pts
  induction pts with
  | nil =>
    intro prev h
    simp [toPolarLoop]
  | cons p rest ih =>
    intro prev h
    obtain ⟨x, y⟩ := p
    simp only [toPolarLoop, List.forall_cons]
    constructor
    · exact h (x, y) (List.mem_cons_self _ _)
    · exact ih _ fun q hq => h q (List.mem_cons_of_mem _ hq)

/-- The first angle emitted by the polar-conversion loop lies within `π`
of the initial `prev`. -/
theorem toPolarLoop_head_theta (norm : ℝ → ℝ) (pts : List (ℝ × ℝ)) (prev : ℝ) :
    List.Forall (fun p : ℝ × ℝ => |p.1 - prev| ≤ π)
      ((toPolarLoop norm prev pts).take 1) := by
  cases pts with
  | nil => simp [toPolarLoop]
  | cons p rest =>
    obtain ⟨x, y⟩ := p
    simp only [toPolarLoop, List.take_succ_cons, List.take_zero, List.forall_cons]
    exact ⟨abs_unwrap_sub_le prev (atan2 y x), trivial⟩

/-- The clamp `_normalize_rho` never goes below zero. -/
theorem normalize_rho_nonneg (x m : ℝ) : 0 ≤ normalize_rho x m :=
  le_max_left _ _

/-- The clamp `_normalize_rho` with bound 1 never exceeds 1. -/
theorem normalize_rho_le_one (x : ℝ) : normalize_rho x 1 ≤ 1 :=
  max_le zero_le_one (min_le_left _ _)

/-- Mapping a function whose outputs all satisfy `P` yields a list all of
whose members satisfy `P`. -/
theorem forall_map_of_forall {α β : Type} (P : β → Prop) (f : α → β)
    (h : ∀ a, P (f a)) : ∀ l : List α, List.Forall P (l.map f) := by
  intro l
  induction l with
  | nil => simp
  | cons a l ih =>
    rw [List.map_cons, List.forall_cons]
    exact ⟨h a, ih⟩

/-- `linspace` always produces exactly `num` samples. -/
theorem linspace_length (a b : ℝ) (n : ℕ) : (linspace a b n).length = n := by
  rw [linspace, List.length_map, List.length_range]

/-- Closed form of the `i`-th `linspace` sample. -/
theorem linspace_getElem (a b : ℝ) (n i : ℕ) (h : i < (linspace a b n).length) :
    (linspace a b n)[i] = a + (i : ℝ) * (b - a) / ((n : ℝ) - 1) := by
  simp only [linspace, List.getElem_map, List.getElem_range]

/-- A non-empty `linspace` starts exactly at `start`. -/
theorem linspace_head (a b : ℝ) (m : ℕ) :
    (linspace a b (m + 1)).head? = some a := by
  rw [linspace, List.range_succ_eq_map]
  simp

/-- With at least two samples, `linspace` ends exactly at `stop`. -/
theorem linspace_getLast (a b : ℝ) (m : ℕ) :
    (linspace a b (m + 2)).getLast? = some b := by
  have h : m + 1 < (linspace a b (m + 2)).length := by
    rw [linspace_length]
    omega
  rw [List.getLast?_eq_getElem?, linspace_length]
  have h2 : m + 2 - 1 = m + 1 := by omega
  rw [h2, List.getElem?_eq_getElem h, linspace_getElem]
  have hne : (m : ℝ) + 1 ≠ 0 := by positivity
  push_cast
  rw [show ((m : ℝ) + 2) - 1 = (m : ℝ) + 1 by ring, mul_div_cancel_left₀ _ hne]
  norm_num

/-- Consecutive `linspace` samples are non-decreasing (when
`start ≤ stop`) and differ by exactly `(stop - start)/(num - 1)`. -/
theorem linspace_chain (a b : ℝ) (n : ℕ) (hab : a ≤ b) :
    List.Chain' (fun u v : ℝ => u ≤ v ∧ v - u = (b - a) / ((n : ℝ) - 1))
      (linspace a b n) := by
  rw [List.chain'_iff_get]
  intro i hi
  rw [linspace_length] at hi
  have hin : i + 1 < n := by omega
  have hn : 2 ≤ n := by omega
  have hi1 : i < (linspace a b n).length := by
    rw [linspace_length]
    omega
  have hi2 : i + 1 < (linspace a b n).length := by
    rw [linspace_length]
    omega
  have hnr : (2 : ℝ) ≤ (n : ℝ) := by exact_mod_cast hn
  have hd : (0 : ℝ) ≤ (n : ℝ) - 1 := by linarith
  simp only [List.get_eq_getElem, linspace_getElem]
  have hdiff :
      (a + ((i : ℝ) + 1) * (b - a) / ((n : ℝ) - 1)) -
        (a + (i : ℝ) * (b - a) / ((n : ℝ) - 1)) = (b - a) / ((n : ℝ) - 1) := by
    ring
  have hstep : 0 ≤ (b - a) / ((n : ℝ) - 1) := div_nonneg (by linarith) hd
  push_cast
  constructor
  · linarith [hdiff, hstep]
  · ring

/-- `generate_hypotrochoid` emits exactly `num_points` coordinates. -/
theorem generate_hypotrochoid_length (R r : ℚ) (d : ℝ) (np : ℕ) (s c : ℝ) :
    (generate_hypotrochoid R r d np s c).length = np := by
  simp [generate_hypotrochoid, toPolarLoop_length, linspace_length]

/-- `generate_epitrochoid` emits exactly `num_points` coordinates. -/
theorem generate_epitrochoid_length (R r : ℚ) (d : ℝ) (np : ℕ) (s c : ℝ) :
    (generate_epitrochoid R r d np s c).length = np := by
  simp [generate_epitrochoid, toPolarLoop_length, linspace_length]

/-- `generate_rose` emits exactly `num_points` coordinates. -/
theorem generate_rose_length (n d : ℤ) (np : ℕ) (s c : ℝ) :
    (generate_rose n d np s c).length = np := by
  simp [generate_rose, linspace_length]

/-- `generate_lissajous` emits exactly `num_points` coordinates. -/
theorem generate_lissajous_length (a b : ℚ) (delta : ℝ) (np : ℕ) (s c : ℝ) :
    (generate_lissajous a b delta np s c).length = np := by
  simp [generate_lissajous, toPolarLoop_length, linspace_length]

/-- `generate_custom_parametric` emits exactly `num_points` coordinates. -/
theorem generate_custom_parametric_length (xf yf : ℝ → ℝ) (ts te : ℝ) (np : ℕ)
    (s c : ℝ) (as_flag : Bool) :
    (generate_custom_parametric xf yf ts te np s c as_flag).length = np := by
  simp [generate_custom_parametric, toPolarLoop_length, linspace_length]

/-- C1: the rose-curve sampling range is computed with Python floor
division (`//`), so for `n = 5, d = 1` (both odd, gcd 1) the code yields
`t_max = floor(pi) = 3`, not the exact value `pi * d / gcd = pi` the
specification requires.  The spec is the evident intent (an exact closing
range), and the `//` in place of `/` truncates it. -/
theorem rose_t_max_floor_bug :
    rose_t_max 5 1 = 3 ∧ rose_t_max 5 1 ≠ π * (1 : ℝ) / 1 := by
  have h3 : (3 : ℝ) < π := Real.pi_gt_three
  have h315 : π < 3.15 := Real.pi_lt_d2
  have hfloor : ⌊π⌋ = (3 : ℤ) := by
    rw [Int.floor_eq_iff]
    constructor
    · push_cast
      linarith
    · push_cast
      linarith
  have hval : rose_t_max 5 1 = 3 := by
    rw [rose_t_max, if_neg (by decide)]
    have harg : π * ((1 : ℤ) : ℝ) / ((Int.gcd 5 1 : ℕ) : ℝ) = π := by
      norm_num
    rw [harg, hfloor]
    norm_num
  refine ⟨hval, ?_⟩
  rw [hval, show π * (1 : ℝ) / 1 = π from by ring]
  exact ne_of_lt h3

/-- C2 counterexample: the Lissajous sampling range is
`2*pi*lcm(A,B)/1000`, not `2*pi*lcm(A,B)/B`: at `a = 3, b = 4` the code
yields `24*pi` while the claimed formula gives `6*pi`. -/
theorem lissajous_period_counterexample :
    lissajous_period 3 4 = 24 * π ∧
      lissajous_period 3 4 ≠
        2 * π * ((ratio_lcm 3 4 : ℝ) / ((truncInt ((4 : ℚ) * 1000) : ℤ) : ℝ)) := by
  have h3tr : truncInt ((3 : ℚ) * 1000) = 3000 := by norm_num [truncInt]
  have htr : truncInt ((4 : ℚ) * 1000) = 4000 := by norm_num [truncInt]
  have hlcm : ratio_lcm 3 4 = 12000 := by
    rw [ratio_lcm, h3tr, htr]
    decide
  have hval : lissajous_period 3 4 = 24 * π := by
    rw [lissajous_period, hlcm]
    push_cast
    ring
  refine ⟨hval, ?_⟩
  rw [hval, hlcm, htr]
  have h6 : 2 * π * (((12000 : ℤ) : ℝ) / ((4000 : ℤ) : ℝ)) = 6 * π := by
    push_cast
    rw [show (12000 : ℝ) / 4000 = 3 from by norm_num]
    ring
  rw [h6]
  intro hcontra
  have : (24 : ℝ) = 6 := mul_right_cancel₀ Real.pi_ne_zero hcontra
  norm_num at this

/-- C2 amended: for the trochoid families the code divides the lcm by the
float `r * 1000`, which agrees with the claimed `lcm(A,B)/B` whenever
`r * 1000` is integral (so that `B = int(r*1000)` equals it); for the
Lissajous family the sampling range is `2*pi*lcm(A,B)/1000`, not
`2*pi*lcm(A,B)/B`. -/
theorem ratio_period_amended :
    (∀ R r : ℚ, ((truncInt (r * 1000) : ℚ) = r * 1000 →
        trochoid_t_max R r =
          2 * π * ((ratio_lcm R r : ℝ) / ((truncInt (r * 1000) : ℤ) : ℝ)))) ∧
      ∀ a b : ℚ, lissajous_period a b = 2 * π * ((ratio_lcm a b : ℝ) / 1000) := by
  constructor
  · intro R r h
    have hR : ((truncInt (r * 1000) : ℤ) : ℝ) = (r : ℝ) * 1000 := by
      have hc := congrArg (fun q : ℚ => (q : ℝ)) h
      push_cast at hc
      exact hc
    rw [trochoid_t_max, trochoid_num_rotations, hR]
    push_cast
    ring
  · intro a b
    rw [lissajous_period]
    ring

/-- Witness for C2 amended: `R = 1, r = 1/4` rationalizes exactly
(`r * 1000 = 250` is integral), and the sampling range then equals
`2*pi*lcm(1000,250)/250 = 8*pi` as the claim's formula predicts. -/
theorem ratio_period_amended_witness :
    ((truncInt ((1 / 4 : ℚ) * 1000) : ℚ) = (1 / 4 : ℚ) * 1000) ∧
      trochoid_t_max 1 (1 / 4) =
        2 * π * ((ratio_lcm 1 (1 / 4) : ℝ) / ((truncInt ((1 / 4 : ℚ) * 1000) : ℤ) : ℝ)) := by
  have h : (truncInt ((1 / 4 : ℚ) * 1000) : ℚ) = (1 / 4 : ℚ) * 1000 := by
    norm_num [truncInt]
  exact ⟨h, ratio_period_amended.1 1 (1 / 4) h⟩

/-- C5: with a zero rolling radius the trochoid period calculation reaches
`lcm / (r * 1000)` with a zero divisor, so CPython raises
`ZeroDivisionError` during the division; no `InvalidParameter` validation
exists anywhere before it. -/
theorem trochoid_zero_radius_zero_division :
    trochoid_num_rotations_checked 1 0 =
      Except.error PyNumericError.zeroDivisionError := by
  have h1 : truncInt ((1 : ℚ) * 1000) = 1000 := by norm_num [truncInt]
  have h0 : truncInt ((0 : ℚ) * 1000) = 0 := by norm_num [truncInt]
  rw [trochoid_num_rotations_checked, h1, h0]
  norm_num

/-- C6 counterexample: `generate_rose(n=5, d=1, num_points=1)` returns a
one-coordinate sequence instead of failing with `InvalidParameter`
(`np.linspace(0, t_max, 1)` is simply `[0.0]` and no validation exists). -/
theorem rose_single_point_counterexample :
    (generate_rose 5 1 1 1 0).length = 1 :=
  generate_rose_length 5 1 1 1 0

/-- C6 amended: every generator invoked with `num_points = 1` returns a
single-coordinate sequence sampled at the start parameter (numpy
`linspace` with one sample is `[start]`); no `InvalidParameter` error is
raised. -/
theorem single_point_amended :
    (∀ a b : ℝ, linspace a b 1 = [a]) ∧
      (∀ (R r : ℚ) (d s c : ℝ), (generate_hypotrochoid R r d 1 s c).length = 1) ∧
      (∀ (R r : ℚ) (d s c : ℝ), (generate_epitrochoid R r d 1 s c).length = 1) ∧
      (∀ (n dd : ℤ) (s c : ℝ), (generate_rose n dd 1 s c).length = 1) ∧
      (∀ (a b : ℚ) (delta s c : ℝ), (generate_lissajous a b delta 1 s c).length = 1) ∧
      ∀ (xf yf : ℝ → ℝ) (ts te s c : ℝ) (fl : Bool),
        (generate_custom_parametric xf yf ts te 1 s c fl).length = 1 := by
  refine ⟨?_, fun R r d s c => generate_hypotrochoid_length R r d 1 s c,
    fun R r d s c => generate_epitrochoid_length R r d 1 s c,
    fun n dd s c => generate_rose_length n dd 1 s c,
    fun a b delta s c => generate_lissajous_length a b delta 1 s c,
    fun xf yf ts te s c fl => generate_custom_parametric_length xf yf ts te 1 s c fl⟩
  intro a b
  rw [linspace, show List.range 1 = [0] from rfl, List.map_cons, List.map_nil]
  norm_num

/-- C8: `linspace` sampling yields exactly `num` values over the closed
interval: the first is `start`, the last is `stop`, consecutive samples
are non-decreasing and differ by exactly `(stop-start)/(num-1)`; and
every generator consequently emits exactly `num_points` coordinates. -/
theorem sampling_spec :
    (∀ (a b : ℝ) (n : ℕ), 2 ≤ n → a ≤ b →
        (linspace a b n).length = n ∧
          (linspace a b n).head? = some a ∧
          (linspace a b n).getLast? = some b ∧
          List.Chain' (fun u v : ℝ => u ≤ v ∧ v - u = (b - a) / ((n : ℝ) - 1))
            (linspace a b n)) ∧
      (∀ (R r : ℚ) (d : ℝ) (np : ℕ) (s c : ℝ),
          (generate_hypotrochoid R r d np s c).length = np) ∧
      (∀ (R r : ℚ) (d : ℝ) (np : ℕ) (s c : ℝ),
          (generate_epitrochoid R r d np s c).length = np) ∧
      (∀ (n dd : ℤ) (np : ℕ) (s c : ℝ), (generate_rose n dd np s c).length = np) ∧
      (∀ (a b : ℚ) (delta : ℝ) (np : ℕ) (s c : ℝ),
          (generate_lissajous a b delta np s c).length = np) ∧
      ∀ (xf yf : ℝ → ℝ) (ts te : ℝ) (np : ℕ) (s c : ℝ) (fl : Bool),
        (generate_custom_parametric xf yf ts te np s c fl).length = np := by
  refine ⟨?_, generate_hypotrochoid_length, generate_epitrochoid_length,
    generate_rose_length, generate_lissajous_length,
    generate_custom_parametric_length⟩
  intro a b n h2 hab
  obtain ⟨m, rfl⟩ : ∃ m, n = m + 2 := ⟨n - 2, by omega⟩
  exact ⟨linspace_length a b (m + 2), linspace_head a b (m + 1),
    linspace_getLast a b m, linspace_chain a b (m + 2) hab⟩

/-- Witness for C8: the sampling contract instantiated at
`linspace 0 1 2`. -/
theorem sampling_spec_witness :
    (2 ≤ 2 ∧ (0 : ℝ) ≤ 1) ∧
      ((linspace 0 1 2).length = 2 ∧
        (linspace 0 1 2).head? = some 0 ∧
        (linspace 0 1 2).getLast? = some 1 ∧
        List.Chain' (fun u v : ℝ => u ≤ v ∧ v - u = ((1 : ℝ) - 0) / ((2 : ℕ) - 1))
          (linspace 0 1 2)) :=
  ⟨⟨le_refl 2, zero_le_one⟩, sampling_spec.1 0 1 2 (le_refl 2) zero_le_one⟩

/-- C9: the `generate_and_save` dispatcher maps every tag other than the
four recognized curve families to the unsupported-curve-family error; no
coordinate sequence is produced. -/
theorem dispatch_unknown_tag (tag : String) (p : SpiroParams)
    (h1 : tag ≠ "hypotrochoid") (h2 : tag ≠ "epitrochoid") (h3 : tag ≠ "rose")
    (h4 : tag ≠ "lissajous") :
    generate_and_save_coords tag p =
      Except.error DispatchError.unsupportedCurveFamily := by
  rw [generate_and_save_coords, if_neg h1, if_neg h2, if_neg h3, if_neg h4]

/-- Witness for C9: the tag `"custom"` (which has no dispatch branch) is
rejected with the unsupported-curve-family error. -/
theorem dispatch_unknown_tag_witness :
    ("custom" ≠ "hypotrochoid" ∧ "custom" ≠ "epitrochoid" ∧
        "custom" ≠ "rose" ∧ "custom" ≠ "lissajous") ∧
      generate_and_save_coords "custom" ⟨1, 1, 1, 1, 1, 1, 1, 1, 1, 1, 0⟩ =
        Except.error DispatchError.unsupportedCurveFamily :=
  ⟨⟨by decide, by decide, by decide, by decide⟩,
    dispatch_unknown_tag "custom" ⟨1, 1, 1, 1, 1, 1, 1, 1, 1, 1, 0⟩
      (by decide) (by decide) (by decide) (by decide)⟩

/-- C3: for the hypotrochoid, epitrochoid, Lissajous and custom-parametric
generators, every adjacent pair of emitted angles differs by at most `π`:
the unwrapping loop leaves consecutive thetas within a half-turn of each
other. -/
theorem theta_continuity :
    (∀ (R r : ℚ) (d : ℝ) (np : ℕ) (s c : ℝ),
        List.Chain' (fun u v : ℝ => |v - u| ≤ π)
          ((generate_hypotrochoid R r d np s c).map Prod.fst)) ∧
      (∀ (R r : ℚ) (d : ℝ) (np : ℕ) (s c : ℝ),
          List.Chain' (fun u v : ℝ => |v - u| ≤ π)
            ((generate_epitrochoid R r d np s c).map Prod.fst)) ∧
      (∀ (a b : ℚ) (delta : ℝ) (np : ℕ) (s c : ℝ),
          List.Chain' (fun u v : ℝ => |v - u| ≤ π)
            ((generate_lissajous a b delta np s c).map Prod.fst)) ∧
      ∀ (xf yf : ℝ → ℝ) (ts te : ℝ) (np : ℕ) (s c : ℝ) (fl : Bool),
        List.Chain' (fun u v : ℝ => |v - u| ≤ π)
          ((generate_custom_parametric xf yf ts te np s c fl).map Prod.fst) :=
  ⟨fun _ _ _ _ _ _ => chain'_of_chain (toPolarLoop_fst_chain _ _ 0),
    fun _ _ _ _ _ _ => chain'_of_chain (toPolarLoop_fst_chain _ _ 0),
    fun _ _ _ _ _ _ => chain'_of_chain (toPolarLoop_fst_chain _ _ 0),
    fun _ _ _ _ _ _ _ _ => chain'_of_chain (toPolarLoop_fst_chain _ _ 0)⟩

/-- C4: every generator clamps every emitted rho into `[0, 1]` via
`_normalize_rho`, for every parameter combination (any scale and any
center offset): out-of-range values saturate at the bound. -/
theorem rho_bounded :
    (∀ (R r : ℚ) (d : ℝ) (np : ℕ) (s c : ℝ),
        List.Forall (fun p : ℝ × ℝ => 0 ≤ p.2 ∧ p.2 ≤ 1)
          (generate_hypotrochoid R r d np s c)) ∧
      (∀ (R r : ℚ) (d : ℝ) (np : ℕ) (s c : ℝ),
          List.Forall (fun p : ℝ × ℝ => 0 ≤ p.2 ∧ p.2 ≤ 1)
            (generate_epitrochoid R r d np s c)) ∧
      (∀ (n dd : ℤ) (np : ℕ) (s c : ℝ),
          List.Forall (fun p : ℝ × ℝ => 0 ≤ p.2 ∧ p.2 ≤ 1)
            (generate_rose n dd np s c)) ∧
      (∀ (a b : ℚ) (delta : ℝ) (np : ℕ) (s c : ℝ),
          List.Forall (fun p : ℝ × ℝ => 0 ≤ p.2 ∧ p.2 ≤ 1)
            (generate_lissajous a b delta np s c)) ∧
      ∀ (xf yf : ℝ → ℝ) (ts te : ℝ) (np : ℕ) (s c : ℝ) (fl : Bool),
        List.Forall (fun p : ℝ × ℝ => 0 ≤ p.2 ∧ p.2 ≤ 1)
          (generate_custom_parametric xf yf ts te np s c fl) := by
  refine ⟨fun R r d np s c => ?_, fun R r d np s c => ?_, fun n dd np s c => ?_,
    fun a b delta np s c => ?_, fun xf yf ts te np s c fl => ?_⟩
  · apply toPolarLoop_forall_snd _ (fun x : ℝ => 0 ≤ x ∧ x ≤ 1)
    intro q hq
    exact ⟨normalize_rho_nonneg _ _, normalize_rho_le_one _⟩
  · apply toPolarLoop_forall_snd _ (fun x : ℝ => 0 ≤ x ∧ x ≤ 1)
    intro q hq
    exact ⟨normalize_rho_nonneg _ _, normalize_rho_le_one _⟩
  · apply forall_map_of_forall (fun p : ℝ × ℝ => 0 ≤ p.2 ∧ p.2 ≤ 1)
    intro t
    exact ⟨normalize_rho_nonneg _ _, normalize_rho_le_one _⟩
  · apply toPolarLoop_forall_snd _ (fun x : ℝ => 0 ≤ x ∧ x ≤ 1)
    intro q hq
    exact ⟨normalize_rho_nonneg _ _, normalize_rho_le_one _⟩
  · apply toPolarLoop_forall_snd _ (fun x : ℝ => 0 ≤ x ∧ x ≤ 1)
    intro q hq
    exact ⟨normalize_rho_nonneg _ _, normalize_rho_le_one _⟩

/-- C7: the custom-parametric generator with constant-zero coordinate
functions and auto-scaling substitutes `max_r = 1` (avoiding a zero
divisor) and emits `clamp(center_offset)` as every rho. -/
theorem degenerate_custom_rho (ts te : ℝ) (np : ℕ) (s c : ℝ) :
    custom_max_r ((linspace ts te np).map fun _ => ((0 : ℝ), (0 : ℝ))) true = 1 ∧
      List.Forall (fun p : ℝ × ℝ => p.2 = normalize_rho c 1)
        (generate_custom_parametric (fun _ => 0) (fun _ => 0) ts te np s c true) := by
  have hfold : ∀ l : List ℝ,
      ((l.map fun _ => ((0 : ℝ), (0 : ℝ))).foldr
        (fun q acc => max (Real.sqrt (q.1 * q.1 + q.2 * q.2)) acc) 0) = 0 := by
    intro l
    induction l with
    | nil => rfl
    | cons x l ih =>
      rw [List.map_cons, List.foldr_cons, ih]
      norm_num
  have hmax :
      custom_max_r ((linspace ts te np).map fun _ => ((0 : ℝ), (0 : ℝ))) true = 1 := by
    rw [custom_max_r, if_pos rfl]
    rw [hfold (linspace ts te np)]
    norm_num
  refine ⟨hmax, ?_⟩
  apply toPolarLoop_forall_snd _ (fun x : ℝ => x = normalize_rho c 1)
  intro q hq
  obtain ⟨t, ht, rfl⟩ := List.mem_map.mp hq
  rw [hmax]
  norm_num

/-- C10: for the hypotrochoid, epitrochoid, Lissajous and custom-parametric
generators, the first emitted theta lies in `[-π, π]`: `prev_theta` starts
at 0, so the first unwrapped angle stays within a half-turn of 0. -/
theorem first_theta_bounded :
    (∀ (R r : ℚ) (d : ℝ) (np : ℕ) (s c : ℝ),
        List.Forall (fun p : ℝ × ℝ => -π ≤ p.1 ∧ p.1 ≤ π)
          ((generate_hypotrochoid R r d np s c).take 1)) ∧
      (∀ (R r : ℚ) (d : ℝ) (np : ℕ) (s c : ℝ),
          List.Forall (fun p : ℝ × ℝ => -π ≤ p.1 ∧ p.1 ≤ π)
            ((generate_epitrochoid R r d np s c).take 1)) ∧
      (∀ (a b : ℚ) (delta : ℝ) (np : ℕ) (s c : ℝ),
          List.Forall (fun p : ℝ × ℝ => -π ≤ p.1 ∧ p.1 ≤ π)
            ((generate_lissajous a b delta np s c).take 1)) ∧
      ∀ (xf yf : ℝ → ℝ) (ts te : ℝ) (np : ℕ) (s c : ℝ) (fl : Bool),
        List.Forall (fun p : ℝ × ℝ => -π ≤ p.1 ∧ p.1 ≤ π)
          ((generate_custom_parametric xf yf ts te np s c fl).take 1) := by
  have himp : ∀ p : ℝ × ℝ, |p.1 - 0| ≤ π → -π ≤ p.1 ∧ p.1 ≤ π := by
    intro p hp
    rw [sub_zero] at hp
    exact abs_le.mp hp
  exact ⟨fun R r d np s c => (toPolarLoop_head_theta _ _ 0).imp himp,
    fun R r d np s c => (toPolarLoop_head_theta _ _ 0).imp himp,
    fun a b delta np s c => (toPolarLoop_head_theta _ _ 0).imp himp,
    fun xf yf ts te np s c fl => (toPolarLoop_head_theta _ _ 0).imp himp⟩
